import Mathlib

/-!
Verification of `macbook/organize_downloads.py`.

The script classifies the immediate children of a downloads directory by
file extension and moves each file into a category subfolder, renaming on
collision.  We embed the script shallowly: a filesystem snapshot is a list
of (path, isDirectory) entries with paths given as component lists, and
each Python function becomes an executable Lean function over that state.
-/

/-! ### Decimal rendering of naturals

The collision loop builds candidate names with a decimal counter
(`f-string` interpolation of `i`, i.e. `Nat.repr`).  To show the loop
always finds a fresh name among finitely many directory entries we need
that distinct counters yield distinct strings, i.e. `Nat.repr` is
injective.  The core library does not provide this, so we derive it from
the structure of `Nat.toDigitsCore`. -/

theorem toDigitsCore_shift (fuel : Nat) :
    ∀ (n : Nat) (ds : List Char),
      Nat.toDigitsCore 10 fuel n ds = Nat.toDigitsCore 10 fuel n [] ++ ds := by
  induction fuel with
  | zero => intro n ds; simp [Nat.toDigitsCore]
  | succ fuel ih =>
    intro n ds
    simp only [Nat.toDigitsCore]
    by_cases h : n / 10 = 0
    · simp [h]
    · simp only [h, if_neg h]
      rw [ih (n / 10) ((n % 10).digitChar :: ds), ih (n / 10) [(n % 10).digitChar]]
      simp

theorem toDigitsCore_fuel_irrelevant (n : Nat) :
    ∀ (fuel fuel' : Nat) (ds : List Char), n < fuel → n < fuel' →
      Nat.toDigitsCore 10 fuel n ds = Nat.toDigitsCore 10 fuel' n ds := by
  induction n using Nat.strong_induction_on with
  | _ n ih =>
    intro fuel fuel' ds hf hf'
    match fuel, fuel' with
    | f + 1, f' + 1 =>
      simp only [Nat.toDigitsCore]
      by_cases h : n / 10 = 0
      · simp [h]
      · simp only [h, if_neg h]
        have hn : 0 < n := by
          rcases Nat.eq_zero_or_pos n with h0 | h0
          · subst h0; simp at h
          · exact h0
        have hdiv : n / 10 < n := Nat.div_lt_self hn (by norm_num)
        exact ih (n / 10) hdiv f f' _ (by omega) (by omega)

theorem toDigits_unfold (n : Nat) :
    Nat.toDigits 10 n =
      if n < 10 then [Nat.digitChar n]
      else Nat.toDigits 10 (n / 10) ++ [Nat.digitChar (n % 10)] := by
  show Nat.toDigitsCore 10 (n + 1) n [] = _
  simp only [Nat.toDigitsCore]
  by_cases h : n / 10 = 0
  · have hlt : n < 10 := by omega
    simp [h, hlt, Nat.mod_eq_of_lt hlt]
  · have hge : ¬ n < 10 := by
      intro hc
      exact h (Nat.div_eq_of_lt hc)
    rw [if_neg hge, if_neg h, toDigitsCore_shift]
    congr 1
    have hn : 0 < n := by omega
    exact toDigitsCore_fuel_irrelevant (n / 10) n (n / 10 + 1) []
      (lt_of_lt_of_le (Nat.div_lt_self hn (by norm_num)) (by omega)) (by omega)

theorem toDigits_ne_nil (n : Nat) : Nat.toDigits 10 n ≠ [] := by
  rw [toDigits_unfold]
  by_cases h : n < 10 <;> simp [h]

theorem digitChar_inj_below_ten :
    ∀ m < 10, ∀ k < 10, Nat.digitChar m = Nat.digitChar k → m = k := by decide

theorem toDigits_inj (m : Nat) :
    ∀ n : Nat, Nat.toDigits 10 m = Nat.toDigits 10 n → m = n := by
  induction m using Nat.strong_induction_on with
  | _ m ih =>
    intro n h
    rw [toDigits_unfold m, toDigits_unfold n] at h
    by_cases hm : m < 10 <;> by_cases hn : n < 10
    · simp only [if_pos hm, if_pos hn, List.cons.injEq] at h
      exact digitChar_inj_below_ten m hm n hn h.1
    · simp only [if_pos hm, if_neg hn] at h
      have hl := congrArg List.length h
      have hpos : 0 < (Nat.toDigits 10 (n / 10)).length :=
        List.length_pos.mpr (toDigits_ne_nil (n / 10))
      simp only [List.length_cons, List.length_nil, List.length_append] at hl
      omega
    · simp only [if_neg hm, if_pos hn] at h
      have hl := congrArg List.length h
      have hpos : 0 < (Nat.toDigits 10 (m / 10)).length :=
        List.length_pos.mpr (toDigits_ne_nil (m / 10))
      simp only [List.length_cons, List.length_nil, List.length_append] at hl
      omega
    · simp only [if_neg hm, if_neg hn] at h
      obtain ⟨h1, h2⟩ := List.append_inj' h rfl
      have hdiv : m / 10 = n / 10 :=
        ih (m / 10) (Nat.div_lt_self (by omega) (by norm_num)) (n / 10) h1
      have hmod : m % 10 = n % 10 := by
        have := List.head_eq_of_cons_eq h2
        exact digitChar_inj_below_ten (m % 10) (Nat.mod_lt m (by norm_num)) (n % 10)
          (Nat.mod_lt n (by norm_num)) this
      have em := Nat.div_add_mod m 10
      have en := Nat.div_add_mod n 10
      omega

theorem Nat.repr_inj {m n : Nat} (h : Nat.repr m = Nat.repr n) : m = n := by
  apply toDigits_inj
  have : (Nat.toDigits 10 m).asString.data = (Nat.toDigits 10 n).asString.data := by
    rw [show (Nat.toDigits 10 m).asString = Nat.repr m from rfl,
        show (Nat.toDigits 10 n).asString = Nat.repr n from rfl, h]
  simpa [List.asString] using this

/-! ### String helpers

The Lean core `String.toLower` and `String.startsWith` recurse on byte
positions and do not reduce in the kernel, so we use equivalent
list-of-characters implementations for the embedding. -/

/-- Lowercasing, as Python `str.lower` acts on the ASCII strings this
program handles (character-wise `Char.toLower`). -/
def strLower (s : String) : String := ⟨s.data.map Char.toLower⟩

/-- Python `str.startswith` on whole strings: `pre` is a prefix of `s`. -/
def strStartsWith (s pre : String) : Bool := pre.data.isPrefixOf s.data

/-! ### Classifier (`TYPES`, `DEFAULT_FOLDER`, `folder_for_ext`) -/

/-- Extension-to-folder mapping from the script (`TYPES` dict, in source
order; keys are unique so association-list lookup matches `dict.get`). -/
def TYPES : List (String × String) := [
  ("mp4", "Videos"), ("mkv", "Videos"), ("mov", "Videos"), ("avi", "Videos"),
  ("flv", "Videos"), ("wmv", "Videos"), ("m4v", "Videos"),
  ("jpg", "Images"), ("jpeg", "Images"), ("png", "Images"), ("gif", "Images"),
  ("webp", "Images"), ("heic", "Images"), ("svg", "Images"), ("bmp", "Images"),
  ("tif", "Images"), ("tiff", "Images"),
  ("pdf", "PDFs"),
  ("doc", "Documents"), ("docx", "Documents"), ("xls", "Documents"),
  ("xlsx", "Documents"), ("ppt", "Documents"), ("pptx", "Documents"),
  ("txt", "Documents"), ("md", "Documents"), ("rtf", "Documents"),
  ("zip", "Archives"), ("tar", "Archives"), ("gz", "Archives"),
  ("tgz", "Archives"), ("bz2", "Archives"), ("rar", "Archives"),
  ("7z", "Archives"),
  ("dmg", "Apps"), ("pkg", "Apps"), ("exe", "Apps"), ("apk", "Apps"),
  ("py", "Code"), ("js", "Code"), ("java", "Code"), ("class", "Code"),
  ("jar", "Code"),
  ("mp3", "Audio"), ("wav", "Audio"), ("flac", "Audio"), ("m4a", "Audio")]

def DEFAULT_FOLDER : String := "Other"

/-- `folder_for_ext`: `TYPES.get(ext.lower(), DEFAULT_FOLDER)`. -/
def folder_for_ext (ext : String) : String :=
  match TYPES.find? (fun kv => kv.1 == strLower ext) with
  | some kv => kv.2
  | none => DEFAULT_FOLDER

/-! ### Python `Path.stem` / `Path.suffix` on a file name -/

/-- Index (from the start) of the last occurrence of a dot in `cs`,
mirroring Python `str.rfind`. -/
def lastDotIdx (cs : List Char) : Option Nat :=
  (cs.reverse.findIdx? (fun c => c == '.')).map (fun j => cs.length - 1 - j)

/-- The split position pathlib uses: the last dot, provided it is neither
the first nor the last character (`0 < i < len(name) - 1`). -/
def pySplitIdx (name : String) : Option Nat :=
  match lastDotIdx name.data with
  | some i => if 0 < i ∧ i < name.data.length - 1 then some i else none
  | none => none

/-- Python `Path(name).stem`. -/
def pyStem (name : String) : String :=
  match pySplitIdx name with
  | some i => ⟨name.data.take i⟩
  | none => name

/-- Python `Path(name).suffix` (keeps the leading dot, or empty). -/
def pySuffix (name : String) : String :=
  match pySplitIdx name with
  | some i => ⟨name.data.drop i⟩
  | none => ""

/-! ### Filesystem model

A snapshot of the part of the filesystem the script can touch: a finite
list of entries, each a path (list of name components, relative to a fixed
universe root) together with a directory flag. -/

structure FS where
  entries : List (List String × Bool)
deriving DecidableEq

/-- Python `Path.exists()`. -/
def fsExists (fs : FS) (p : List String) : Bool :=
  fs.entries.any (fun e => e.1 == p)

/-- Python `Path.is_dir()`: exists and is a directory. -/
def fsIsDir (fs : FS) (p : List String) : Bool :=
  fs.entries.any (fun e => e.1 == p && e.2)

/-- Python `Path.mkdir(parents=True, exist_ok=True)` one level below an
existing directory (the only way the script calls it). -/
def fsMkdir (fs : FS) (p : List String) : FS :=
  if fsExists fs p then fs else ⟨fs.entries ++ [(p, true)]⟩

/-- Python `shutil.move(src, dst)` for a file `src` and a fresh `dst`
(the script only moves to paths `unique_target` verified to be free):
the entry at `src` disappears and a file entry at `dst` appears. -/
def fsMove (fs : FS) (src dst : List String) : FS :=
  ⟨fs.entries.filter (fun e => !(e.1 == src)) ++ [(dst, false)]⟩

/-- Decompose an entry as an immediate child of `root`, keeping its name
and directory flag. -/
def childOf (root : List String) (e : List String × Bool) : Option (String × Bool) :=
  if e.1.take root.length == root then
    match e.1.drop root.length with
    | [name] => some (name, e.2)
    | _ => none
  else none

/-- Python `Path.iterdir()`: the immediate children of `root`, in entry
order (a snapshot taken before any move). -/
def childrenOf (fs : FS) (root : List String) : List (String × Bool) :=
  fs.entries.filterMap (childOf root)

/-- Rendering of a component path for the printed messages. -/
def pathStr : List String → String
  | [] => ""
  | [x] => x
  | x :: xs => x ++ "/" ++ pathStr xs

/-! ### Collision resolution (`unique_target`) -/

/-- The `i`-th renamed candidate, Python `f-string` `stem (i)suffix`. -/
def candidateName (stem sfx : String) (i : Nat) : String :=
  stem ++ " (" ++ Nat.repr i ++ ")" ++ sfx

theorem string_data_append (s t : String) : (s ++ t).data = s.data ++ t.data := rfl

theorem candidateName_inj (stem sfx : String) {i j : Nat}
    (h : candidateName stem sfx i = candidateName stem sfx j) : i = j := by
  have hd := congrArg String.data h
  simp only [candidateName, string_data_append, List.append_assoc] at hd
  have h1 := List.append_cancel_left hd
  have h2 := List.append_cancel_left h1
  have h3 := List.append_cancel_right h2
  exact Nat.repr_inj (String.ext h3)

theorem fsExists_iff (fs : FS) (p : List String) :
    fsExists fs p = true ↔ p ∈ fs.entries.map Prod.fst := by
  constructor
  · intro h
    obtain ⟨e, he, heq⟩ := List.any_eq_true.mp h
    exact List.mem_map.mpr ⟨e, he, by simpa using heq⟩
  · intro h
    obtain ⟨e, he, heq⟩ := List.mem_map.mp h
    exact List.any_eq_true.mpr ⟨e, he, by simpa using heq⟩

/-- The `while True` probe loop of `unique_target`, with explicit fuel.
The Python loop is unbounded; `probeLoop_ne_none` below shows that
`fs.entries.length + 1` probes always suffice, so running the loop with
that much fuel is an exact model of the unbounded loop. -/
def probeLoop (fs : FS) (dest_dir : List String) (stem sfx : String) :
    Nat → Nat → Option (List String)
  | 0, _ => none
  | fuel + 1, i =>
    let candidate := dest_dir ++ [candidateName stem sfx i]
    if fsExists fs candidate then probeLoop fs dest_dir stem sfx fuel (i + 1)
    else some candidate

theorem probeLoop_none (fs : FS) (d : List String) (stem sfx : String) :
    ∀ fuel i, probeLoop fs d stem sfx fuel i = none →
      ∀ k, k < fuel → fsExists fs (d ++ [candidateName stem sfx (i + k)]) = true := by
  intro fuel
  induction fuel with
  | zero => intro i h k hk; omega
  | succ fuel ih =>
    intro i h k hk
    simp only [probeLoop] at h
    by_cases hex : fsExists fs (d ++ [candidateName stem sfx i]) = true
    · rw [if_pos hex] at h
      cases k with
      | zero => simpa using hex
      | succ k =>
        have := ih (i + 1) h k (by omega)
        have harith : i + 1 + k = i + (k + 1) := by omega
        rwa [harith] at this
    · rw [if_neg hex] at h
      exact absurd h (by simp)

theorem probeLoop_some (fs : FS) (d : List String) (stem sfx : String) :
    ∀ fuel i c, probeLoop fs d stem sfx fuel i = some c →
      ∃ k, c = d ++ [candidateName stem sfx (i + k)] ∧
        fsExists fs c = false ∧
        ∀ j, j < k → fsExists fs (d ++ [candidateName stem sfx (i + j)]) = true := by
  intro fuel
  induction fuel with
  | zero => intro i c h; simp [probeLoop] at h
  | succ fuel ih =>
    intro i c h
    simp only [probeLoop] at h
    by_cases hex : fsExists fs (d ++ [candidateName stem sfx i]) = true
    · rw [if_pos hex] at h
      obtain ⟨k, hc, hfree, hall⟩ := ih (i + 1) c h
      have harith0 : i + 1 + k = i + (k + 1) := by omega
      rw [harith0] at hc
      refine ⟨k + 1, hc, hfree, ?_⟩
      intro j hj
      cases j with
      | zero => simpa using hex
      | succ j =>
        have := hall j (by omega)
        have harith : i + 1 + j = i + (j + 1) := by omega
        rwa [harith] at this
    · rw [if_neg hex] at h
      obtain rfl : d ++ [candidateName stem sfx i] = c := by simpa using h
      exact ⟨0, by simp, by simpa using hex, fun j hj => absurd hj (Nat.not_lt_zero j)⟩

theorem no_all_candidates_exist (fs : FS) (d : List String) (stem sfx : String) (i : Nat)
    (h : ∀ k, k ≤ fs.entries.length →
      fsExists fs (d ++ [candidateName stem sfx (i + k)]) = true) : False := by
  have hinj : Function.Injective
      (fun k : Fin (fs.entries.length + 1) => d ++ [candidateName stem sfx (i + k.1)]) := by
    intro a b hab
    have hx : candidateName stem sfx (i + a.1) = candidateName stem sfx (i + b.1) := by
      have := List.append_cancel_left hab
      simpa using this
    have := candidateName_inj stem sfx hx
    exact Fin.ext (by omega)
  have hsub : (Finset.univ.image
        (fun k : Fin (fs.entries.length + 1) => d ++ [candidateName stem sfx (i + k.1)]))
      ⊆ (fs.entries.map Prod.fst).toFinset := by
    intro p hp
    obtain ⟨k, _, hk⟩ := Finset.mem_image.mp hp
    rw [List.mem_toFinset]
    exact (fsExists_iff fs p).mp (hk ▸ h k.1 (by omega))
  have h1 := Finset.card_le_card hsub
  rw [Finset.card_image_of_injective _ hinj, Finset.card_univ, Fintype.card_fin] at h1
  have h2 := List.toFinset_card_le (fs.entries.map Prod.fst)
  rw [List.length_map] at h2
  omega

theorem probeLoop_ne_none (fs : FS) (d : List String) (stem sfx : String) (i : Nat) :
    probeLoop fs d stem sfx (fs.entries.length + 1) i ≠ none := by
  intro h
  exact no_all_candidates_exist fs d stem sfx i
    (fun k hk => probeLoop_none fs d stem sfx (fs.entries.length + 1) i h k (by omega))

/-- `unique_target(dest_dir, name)`: return `dest_dir/name` if free,
otherwise probe `stem (1)suffix`, `stem (2)suffix`, ... and return the
first free candidate. -/
def unique_target (fs : FS) (dest_dir : List String) (name : String) : List String :=
  if fsExists fs (dest_dir ++ [name]) then
    match h : probeLoop fs dest_dir (pyStem name) (pySuffix name) (fs.entries.length + 1) 1 with
    | some c => c
    | none => absurd h (probeLoop_ne_none fs dest_dir (pyStem name) (pySuffix name) 1)
  else dest_dir ++ [name]

/-! ### Organizer (`organize`) -/

/-- Extension of an entry name: `item.suffix[1:].lower()` if the name has
a suffix, else the empty string. -/
def extOf (name : String) : String :=
  if pySuffix name ≠ "" then strLower ⟨(pySuffix name).data.drop 1⟩ else ""

/-- `folder_for_ext(ext) if ext else DEFAULT_FOLDER`. -/
def folderNameOf (name : String) : String :=
  if extOf name ≠ "" then folder_for_ext (extOf name) else DEFAULT_FOLDER

/-- The folder-creation step for one entry: report or create `target_dir`
when it does not exist.  Returns the new state and the printed lines. -/
def mkdirStep (dry_run : Bool) (fs : FS) (target_dir : List String) : FS × List String :=
  if fsExists fs target_dir then (fs, [])
  else if dry_run then (fs, ["[DRY RUN] Would create folder: " ++ pathStr target_dir])
  else (fsMkdir fs target_dir, ["Created folder: " ++ pathStr target_dir])

/-- The move step for one entry: report or perform the move of
`downloads/name` to `target_path`. -/
def moveStep (downloads : List String) (dry_run : Bool) (fs : FS) (name : String)
    (target_path : List String) : FS × List String :=
  if dry_run then
    (fs, ["[DRY RUN] Would move: " ++ name ++ " -> " ++
      pathStr (target_path.drop downloads.length)])
  else
    (fsMove fs (downloads ++ [name]) target_path,
      ["Moved: " ++ name ++ " -> " ++ pathStr (target_path.drop downloads.length)])

/-- The body of the `for item in downloads.iterdir()` loop for one item
(a name plus directory flag): skip directories and hidden names, else
classify, ensure the folder, resolve the collision and move or report. -/
def entryStep (downloads : List String) (dry_run : Bool) (fs : FS)
    (item : String × Bool) : FS × List String :=
  if item.2 then (fs, [])
  else if strStartsWith item.1 "." then (fs, [])
  else
    let target_dir := downloads ++ [folderNameOf item.1]
    let s1 := mkdirStep dry_run fs target_dir
    let target_path := unique_target s1.1 target_dir item.1
    let s2 := moveStep downloads dry_run s1.1 item.1 target_path
    (s2.1, s1.2 ++ s2.2)

/-- One fold step: thread the state and accumulate the printed lines. -/
def orgStep (downloads : List String) (dry_run : Bool)
    (st : FS × List String) (item : String × Bool) : FS × List String :=
  let r := entryStep downloads dry_run st.1 item
  (r.1, st.2 ++ r.2)

/-- Result of a run: final filesystem, stdout lines, stderr lines and the
returned exit status. -/
structure OrgResult where
  fs : FS
  stdout : List String
  stderr : List String
  exitCode : Nat
deriving DecidableEq

/-- `organize(downloads, dry_run)`: validate the root, then process each
immediate child in turn. -/
def organize (fs : FS) (downloads : List String) (dry_run : Bool) : OrgResult :=
  if !fsExists fs downloads || !fsIsDir fs downloads then
    { fs := fs, stdout := [],
      stderr := ["Error: not a directory: " ++ pathStr downloads], exitCode := 1 }
  else
    let header := (if dry_run then "DRY RUN: " else "") ++ "Organizing: " ++ pathStr downloads
    let res := (childrenOf fs downloads).foldl (orgStep downloads dry_run) (fs, [])
    { fs := res.1, stdout := header :: res.2 ++ ["Done."], stderr := [], exitCode := 0 }

/-! ### Dry-run frame lemmas -/

theorem mkdirStep_dry_fst (fs : FS) (td : List String) : (mkdirStep true fs td).1 = fs := by
  unfold mkdirStep
  split
  · rfl
  · rfl

theorem entryStep_dry_fst (d : List String) (fs : FS) (it : String × Bool) :
    (entryStep d true fs it).1 = fs := by
  unfold entryStep
  split
  · rfl
  split
  · rfl
  simp only [moveStep, if_true, mkdirStep_dry_fst]

theorem foldl_dry (d : List String) (items : List (String × Bool)) :
    ∀ (fs : FS) (out : List String),
      items.foldl (orgStep d true) (fs, out)
        = (fs, out ++ items.flatMap (fun it => (entryStep d true fs it).2)) := by
  induction items with
  | nil => intro fs out; simp
  | cons it rest ih =>
    intro fs out
    have hstep : orgStep d true (fs, out) it
        = (fs, out ++ (entryStep d true fs it).2) := by
      show ((entryStep d true fs it).1, out ++ (entryStep d true fs it).2) = _
      rw [entryStep_dry_fst]
    rw [List.foldl_cons, hstep, ih fs (out ++ (entryStep d true fs it).2)]
    simp

/-- C1: for every directory state and root, `organize(root, simulate=true)`
performs zero filesystem mutations: the resulting filesystem equals the
input filesystem, whatever it reports. -/
theorem organize_simulate_no_mutation (fs : FS) (downloads : List String) :
    (organize fs downloads true).fs = fs := by
  unfold organize
  split
  · rfl
  · simp only [foldl_dry]

/-- C2: when the root does not exist or is not a directory, `organize`
leaves the filesystem untouched, prints only one line on stderr, and
returns exit status 1. -/
theorem organize_invalid_root (fs : FS) (downloads : List String) (dry_run : Bool)
    (h : fsExists fs downloads = false ∨ fsIsDir fs downloads = false) :
    organize fs downloads dry_run
      = ⟨fs, [], ["Error: not a directory: " ++ pathStr downloads], 1⟩ := by
  have hc : (!fsExists fs downloads || !fsIsDir fs downloads) = true := by
    rcases h with h | h <;> simp [h]
  simp [organize, hc]

theorem organize_invalid_root_witness :
    fsExists ⟨[]⟩ ["nope"] = false ∧
    organize ⟨[]⟩ ["nope"] false = ⟨⟨[]⟩, [], ["Error: not a directory: nope"], 1⟩ :=
  ⟨by decide, organize_invalid_root ⟨[]⟩ ["nope"] false (Or.inl (by decide))⟩

/-! ### Classifier claims -/

theorem TYPES_keys_lower : TYPES.all (fun kv => strLower kv.1 == kv.1) = true := by decide

/-- C6: for every extension whose lowercasing is a key of `TYPES`,
`folder_for_ext` returns the configured folder, and agrees on the
original and the lowercased spelling: lookup is case-insensitive. -/
theorem folder_for_ext_case_insensitive (e : String) (kv : String × String)
    (h : TYPES.find? (fun p => p.1 == strLower e) = some kv) :
    folder_for_ext e = kv.2 ∧ folder_for_ext (strLower e) = kv.2 := by
  constructor
  · simp [folder_for_ext, h]
  · have hmem := List.mem_of_find?_eq_some h
    have hk : kv.1 = strLower e := by simpa using List.find?_some h
    have hlow : strLower kv.1 = kv.1 := by
      simpa using List.all_eq_true.mp TYPES_keys_lower kv hmem
    have hidem : strLower (strLower e) = strLower e := by
      rw [← hk, hlow]
    simp [folder_for_ext, hidem, h]

theorem folder_for_ext_case_insensitive_witness :
    TYPES.find? (fun p => p.1 == strLower "JPG") = some ("jpg", "Images") ∧
    folder_for_ext "JPG" = "Images" ∧ folder_for_ext (strLower "JPG") = "Images" := by
  refine ⟨by decide, ?_, ?_⟩
  · exact (folder_for_ext_case_insensitive "JPG" ("jpg", "Images") (by decide)).1
  · exact (folder_for_ext_case_insensitive "JPG" ("jpg", "Images") (by decide)).2

/-- C7: for every extension string (the empty string included) whose
lowercasing is not a key of `TYPES`, `folder_for_ext` returns
`DEFAULT_FOLDER`; being a Lean function it is total over all strings,
with no side effects or failure modes. -/
theorem folder_for_ext_default (e : String)
    (h : TYPES.find? (fun p => p.1 == strLower e) = none) :
    folder_for_ext e = DEFAULT_FOLDER := by
  simp [folder_for_ext, h]

theorem folder_for_ext_default_witness :
    TYPES.find? (fun p => p.1 == strLower "") = none ∧
    folder_for_ext "" = DEFAULT_FOLDER :=
  ⟨by decide, folder_for_ext_default "" (by decide)⟩

/-- C9: the collision probe loop terminates on every finite directory:
`fs.entries.length + 1` probes always reach a candidate that does not
exist, whatever the start index, even though the source loop carries no
upper bound on the counter. -/
theorem probeLoop_terminates (fs : FS) (d : List String) (stem sfx : String) (i : Nat) :
    ∃ c, probeLoop fs d stem sfx (fs.entries.length + 1) i = some c
      ∧ fsExists fs c = false := by
  cases hp : probeLoop fs d stem sfx (fs.entries.length + 1) i with
  | none => exact absurd hp (probeLoop_ne_none fs d stem sfx i)
  | some c =>
    obtain ⟨k, _, hfree, _⟩ := probeLoop_some fs d stem sfx _ i c hp
    exact ⟨c, rfl, hfree⟩

/-! ### Concrete live runs -/

/-- C4: on a root containing `a.txt`, `b.jpg`, `.hidden` and `sub/`, a
live run moves only `a.txt` to `Documents/a.txt` and `b.jpg` to
`Images/b.jpg`, leaves `.hidden` and `sub/` in place, and exits 0. -/
theorem organize_live_basic_example :
    organize ⟨[(["root"], true), (["root", "a.txt"], false), (["root", "b.jpg"], false),
        (["root", ".hidden"], false), (["root", "sub"], true)]⟩ ["root"] false
      = ⟨⟨[(["root"], true), (["root", ".hidden"], false), (["root", "sub"], true),
           (["root", "Documents"], true), (["root", "Documents", "a.txt"], false),
           (["root", "Images"], true), (["root", "Images", "b.jpg"], false)]⟩,
         ["Organizing: root", "Created folder: root/Documents",
          "Moved: a.txt -> Documents/a.txt", "Created folder: root/Images",
          "Moved: b.jpg -> Images/b.jpg", "Done."],
         [], 0⟩ := by decide

/-- C5: on a root containing `report.pdf` with `PDFs/report.pdf` already
present, a live run moves `report.pdf` to `PDFs/report (1).pdf` and the
pre-existing `PDFs/report.pdf` is unchanged. -/
theorem organize_live_collision_example :
    organize ⟨[(["root"], true), (["root", "report.pdf"], false),
        (["root", "PDFs"], true), (["root", "PDFs", "report.pdf"], false)]⟩ ["root"] false
      = ⟨⟨[(["root"], true), (["root", "PDFs"], true),
           (["root", "PDFs", "report.pdf"], false),
           (["root", "PDFs", "report (1).pdf"], false)]⟩,
         ["Organizing: root", "Moved: report.pdf -> PDFs/report (1).pdf", "Done."],
         [], 0⟩ := by decide

/-! ### `unique_target` functional specification -/

/-- C3: `unique_target` returns `dest_dir/name` when free; otherwise the
candidate `stem (i)suffix` for the least `i ≥ 1` that is free.  The
returned path never names an existing entry, and a second call against
the unchanged state returns the same path. -/
theorem unique_target_spec (fs : FS) (dest_dir : List String) (name : String) :
    (fsExists fs (dest_dir ++ [name]) = false →
      unique_target fs dest_dir name = dest_dir ++ [name]) ∧
    (fsExists fs (dest_dir ++ [name]) = true →
      ∃ i, 1 ≤ i ∧
        unique_target fs dest_dir name
          = dest_dir ++ [candidateName (pyStem name) (pySuffix name) i] ∧
        fsExists fs (dest_dir ++ [candidateName (pyStem name) (pySuffix name) i]) = false ∧
        ∀ j, 1 ≤ j → j < i →
          fsExists fs (dest_dir ++ [candidateName (pyStem name) (pySuffix name) j]) = true) ∧
    fsExists fs (unique_target fs dest_dir name) = false ∧
    unique_target fs dest_dir name = unique_target fs dest_dir name := by
  by_cases hex : fsExists fs (dest_dir ++ [name]) = true
  · have hne := probeLoop_ne_none fs dest_dir (pyStem name) (pySuffix name) 1
    obtain ⟨c, hc, hp⟩ : ∃ c, unique_target fs dest_dir name = c ∧
        probeLoop fs dest_dir (pyStem name) (pySuffix name) (fs.entries.length + 1) 1
          = some c := by
      unfold unique_target
      simp only [hex, if_true]
      split
      · next c heq => exact ⟨c, rfl, heq⟩
      · next heq => exact absurd heq hne
    obtain ⟨k, hck, hfree, hall⟩ :=
      probeLoop_some fs dest_dir (pyStem name) (pySuffix name) _ 1 c hp
    refine ⟨fun hcontra => absurd hex (by simp [hcontra]),
      fun _ => ⟨1 + k, by omega, by rw [hc, hck], by rw [← hck]; exact hfree, ?_⟩,
      by rw [hc]; exact hfree, rfl⟩
    intro j h1 h2
    have hj := hall (j - 1) (by omega)
    have e : 1 + (j - 1) = j := by omega
    rwa [e] at hj
  · have hfalse : fsExists fs (dest_dir ++ [name]) = false := by
      simpa using hex
    have hu : unique_target fs dest_dir name = dest_dir ++ [name] := by
      unfold unique_target
      simp [hfalse]
    exact ⟨fun _ => hu, fun hcontra => absurd hcontra hex,
      by rw [hu]; exact hfalse, rfl⟩

theorem unique_target_spec_witness :
    fsExists ⟨[(["d"], true), (["d", "report.pdf"], false)]⟩ (["d"] ++ ["report.pdf"]) = true ∧
    (∃ i, 1 ≤ i ∧
      unique_target ⟨[(["d"], true), (["d", "report.pdf"], false)]⟩ ["d"] "report.pdf"
        = ["d"] ++ [candidateName (pyStem "report.pdf") (pySuffix "report.pdf") i] ∧
      fsExists ⟨[(["d"], true), (["d", "report.pdf"], false)]⟩
        (["d"] ++ [candidateName (pyStem "report.pdf") (pySuffix "report.pdf") i]) = false ∧
      ∀ j, 1 ≤ j → j < i →
        fsExists ⟨[(["d"], true), (["d", "report.pdf"], false)]⟩
          (["d"] ++ [candidateName (pyStem "report.pdf") (pySuffix "report.pdf") j]) = true) :=
  ⟨by decide,
    (unique_target_spec ⟨[(["d"], true), (["d", "report.pdf"], false)]⟩ ["d"] "report.pdf").2.1
      (by decide)⟩

/-! ### Simulate-mode creation reports (C8)

In simulate mode the folder is never created, so the existence check
before each move keeps failing and the would-create report is printed
again for every later entry of the same category; the claim that it is
emitted at most once per run fails. -/

/-- C8 counterexample: a root with two text files, simulate mode.  The
Documents folder does not exist, and its would-create report is emitted
twice in one run (once per entry), not at most once. -/
theorem simulate_create_report_emitted_twice :
    (organize ⟨[(["root"], true), (["root", "a.txt"], false), (["root", "b.txt"], false)]⟩
        ["root"] true).stdout.count "[DRY RUN] Would create folder: root/Documents" = 2 := by
  decide

/-- C8 amended: in simulate mode the would-create report is emitted once
per processed entry whose category folder does not exist on disk — the
folder existence is re-tested before every move against the unchanged
disk state, so one category may be reported several times per run.  The
stdout of a simulate run is the header, then for each qualifying child
the optional would-create line followed by the would-move line, then the
completion marker. -/
theorem simulate_create_report_per_entry (fs : FS) (downloads : List String)
    (hval : (!fsExists fs downloads || !fsIsDir fs downloads) = false) :
    (organize fs downloads true).stdout
      = ("DRY RUN: " ++ "Organizing: " ++ pathStr downloads)
        :: (childrenOf fs downloads).flatMap (fun it => (entryStep downloads true fs it).2)
        ++ ["Done."] ∧
    ∀ it : String × Bool, it.2 = false → strStartsWith it.1 "." = false →
      (entryStep downloads true fs it).2
        = (if fsExists fs (downloads ++ [folderNameOf it.1]) then []
           else ["[DRY RUN] Would create folder: "
                  ++ pathStr (downloads ++ [folderNameOf it.1])])
          ++ ["[DRY RUN] Would move: " ++ it.1 ++ " -> "
               ++ pathStr ((unique_target fs (downloads ++ [folderNameOf it.1]) it.1).drop
                    downloads.length)] := by
  constructor
  · unfold organize
    rw [if_neg (by simp [hval])]
    rw [foldl_dry]
    simp
  · intro it h2 hh
    by_cases hfe : fsExists fs (downloads ++ [folderNameOf it.1]) = true
    · simp [entryStep, mkdirStep, moveStep, h2, hh, hfe]
    · have hfe' : fsExists fs (downloads ++ [folderNameOf it.1]) = false := by
        simpa using hfe
      simp [entryStep, mkdirStep, moveStep, h2, hh, hfe']

theorem simulate_create_report_per_entry_witness :
    (!fsExists ⟨[(["root"], true), (["root", "a.txt"], false), (["root", "b.txt"], false)]⟩
        ["root"]
      || !fsIsDir ⟨[(["root"], true), (["root", "a.txt"], false), (["root", "b.txt"], false)]⟩
        ["root"]) = false ∧
    (organize ⟨[(["root"], true), (["root", "a.txt"], false), (["root", "b.txt"], false)]⟩
        ["root"] true).stdout
      = ("DRY RUN: " ++ "Organizing: " ++ pathStr ["root"])
        :: (childrenOf ⟨[(["root"], true), (["root", "a.txt"], false),
              (["root", "b.txt"], false)]⟩ ["root"]).flatMap
            (fun it => (entryStep ["root"] true
              ⟨[(["root"], true), (["root", "a.txt"], false), (["root", "b.txt"], false)]⟩ it).2)
        ++ ["Done."] :=
  ⟨by decide,
    (simulate_create_report_per_entry
      ⟨[(["root"], true), (["root", "a.txt"], false), (["root", "b.txt"], false)]⟩
      ["root"] (by decide)).1⟩

/-! ### Live-run invariants (C10) -/

theorem unique_target_shape (fs : FS) (d : List String) (name : String) :
    ∃ m, unique_target fs d name = d ++ [m] := by
  unfold unique_target
  split
  · split
    · next c heq =>
      obtain ⟨k, hck, _, _⟩ := probeLoop_some fs d (pyStem name) (pySuffix name) _ 1 c heq
      exact ⟨_, hck⟩
    · next heq => exact absurd heq (probeLoop_ne_none fs d (pyStem name) (pySuffix name) 1)
  · exact ⟨name, rfl⟩

theorem ne_append_singleton (root : List String) (x : String) : root ≠ root ++ [x] := by
  intro h
  have := congrArg List.length h
  simp at this

/-- Invariant threaded through the live fold: every non-hidden file that
is an immediate child of `root` still has its processing pending. -/
def pendingFiles (root : List String) (fs : FS) (rem : List (String × Bool)) : Prop :=
  ∀ name, (root ++ [name], false) ∈ fs.entries →
    strStartsWith name "." = false → (name, false) ∈ rem

theorem entryStep_live_fst (root : List String) (fs : FS) (it : String × Bool)
    (h2 : it.2 = false) (hh : strStartsWith it.1 "." = false) :
    ∃ (fsm : FS) (m : String),
      (fsm = fs ∨ fsm = ⟨fs.entries ++ [(root ++ [folderNameOf it.1], true)]⟩) ∧
      (entryStep root false fs it).1
        = ⟨fsm.entries.filter (fun e => !(e.1 == root ++ [it.1]))
            ++ [(root ++ [folderNameOf it.1, m], false)]⟩ := by
  obtain ⟨m, hm⟩ := unique_target_shape
    (mkdirStep false fs (root ++ [folderNameOf it.1])).1
    (root ++ [folderNameOf it.1]) it.1
  refine ⟨(mkdirStep false fs (root ++ [folderNameOf it.1])).1, m, ?_, ?_⟩
  · by_cases hfe : fsExists fs (root ++ [folderNameOf it.1]) = true
    · left
      simp [mkdirStep, hfe]
    · right
      have hfe' : fsExists fs (root ++ [folderNameOf it.1]) = false := by simpa using hfe
      simp [mkdirStep, fsMkdir, hfe']
  · have hred : (entryStep root false fs it).1
        = fsMove (mkdirStep false fs (root ++ [folderNameOf it.1])).1 (root ++ [it.1])
            (unique_target (mkdirStep false fs (root ++ [folderNameOf it.1])).1
              (root ++ [folderNameOf it.1]) it.1) := by
      simp [entryStep, moveStep, h2, hh]
    rw [hred, hm]
    unfold fsMove
    simp [List.append_assoc]

theorem live_fold_invariant (root : List String) :
    ∀ (items : List (String × Bool)) (fs : FS) (out : List String),
      (root, true) ∈ fs.entries → pendingFiles root fs items →
      (root, true) ∈ ((items.foldl (orgStep root false) (fs, out)).1).entries ∧
      pendingFiles root (items.foldl (orgStep root false) (fs, out)).1 [] := by
  intro items
  induction items with
  | nil => intro fs out ha hb; exact ⟨ha, hb⟩
  | cons it rest ih =>
    intro fs out ha hb
    rw [List.foldl_cons]
    have hshow : List.foldl (orgStep root false) (orgStep root false (fs, out) it) rest
        = List.foldl (orgStep root false) ((entryStep root false fs it).1,
            out ++ (entryStep root false fs it).2) rest := rfl
    rw [hshow]
    by_cases h2 : it.2 = true
    · have hid : (entryStep root false fs it).1 = fs := by simp [entryStep, h2]
      rw [hid]
      apply ih fs _ ha
      intro name hm hh
      have hcons := hb name hm hh
      rcases List.mem_cons.mp hcons with heq | hmem
      · exfalso
        rw [← heq] at h2
        simp at h2
      · exact hmem
    · have h2' : it.2 = false := by simpa using h2
      by_cases hhid : strStartsWith it.1 "." = true
      · have hid : (entryStep root false fs it).1 = fs := by simp [entryStep, h2', hhid]
        rw [hid]
        apply ih fs _ ha
        intro name hm hh
        have hcons := hb name hm hh
        rcases List.mem_cons.mp hcons with heq | hmem
        · exfalso
          have hname : it.1 = name := by rw [← heq]
          rw [← hname] at hh
          rw [hh] at hhid
          exact Bool.false_ne_true hhid
        · exact hmem
      · have hh' : strStartsWith it.1 "." = false := by simpa using hhid
        obtain ⟨fsm, m, hfsm, hfst⟩ := entryStep_live_fst root fs it h2' hh'
        rw [hfst]
        have hfsm_root : (root, true) ∈ fsm.entries := by
          rcases hfsm with rfl | rfl
          · exact ha
          · exact List.mem_append_left _ ha
        apply ih
        · apply List.mem_append_left
          refine List.mem_filter.mpr ⟨hfsm_root, ?_⟩
          simp only [Bool.not_eq_true']
          exact beq_eq_false_iff_ne.mpr (ne_append_singleton root it.1)
        · intro name hm hh
          rcases List.mem_append.mp hm with hml | hmr
          · obtain ⟨hmem_fsm, hpred⟩ := List.mem_filter.mp hml
            have hneq : name ≠ it.1 := by
              intro hch
              rw [hch] at hpred
              simp at hpred
            have hmem_fs : (root ++ [name], false) ∈ fs.entries := by
              rcases hfsm with rfl | rfl
              · exact hmem_fsm
              · rcases List.mem_append.mp hmem_fsm with hin | hlast
                · exact hin
                · exfalso
                  simp at hlast
            have hcons := hb name hmem_fs hh
            rcases List.mem_cons.mp hcons with heq | hmem
            · exfalso
              have : it.1 = name := by rw [← heq]
              exact hneq this.symm
            · exact hmem
          · exfalso
            have heq : (root ++ [name], false) = (root ++ [folderNameOf it.1, m], false) := by
              simpa using hmr
            have hpath := congrArg Prod.fst heq
            have := List.append_cancel_left hpath
            simp at this

theorem childOf_root_append (root : List String) (name : String) (b : Bool) :
    childOf root (root ++ [name], b) = some (name, b) := by
  simp [childOf, List.take_left, List.drop_left]

theorem childOf_some (root : List String) (e : List String × Bool) (x : String × Bool)
    (h : childOf root e = some x) : e = (root ++ [x.1], x.2) := by
  unfold childOf at h
  split at h
  case isTrue htake =>
    split at h
    · next name heqdrop =>
      obtain rfl : x = (name, e.2) := by
        have := Option.some.inj h
        exact this.symm
      have htake' : e.1.take root.length = root := by simpa using htake
      have : e.1 = root ++ [name] := by
        conv_lhs => rw [← List.take_append_drop root.length e.1]
        rw [htake', heqdrop]
      exact Prod.ext this rfl
    · next heqdrop => exact absurd h (by simp)
  case isFalse => exact absurd h (by simp)

theorem foldl_skip_all (root : List String) :
    ∀ (items : List (String × Bool)) (fs : FS) (out : List String),
      (∀ it ∈ items, entryStep root false fs it = (fs, [])) →
      items.foldl (orgStep root false) (fs, out) = (fs, out) := by
  intro items
  induction items with
  | nil => intro fs out _; rfl
  | cons it rest ih =>
    intro fs out h
    rw [List.foldl_cons]
    have h1 : orgStep root false (fs, out) it = (fs, out) := by
      show ((entryStep root false fs it).1, out ++ (entryStep root false fs it).2) = (fs, out)
      rw [h it (by simp)]
      simp
    rw [h1]
    exact ih fs out (fun x hx => h x (by simp [hx]))

/-- C10: live-mode `organize` is idempotent.  After a successful live run
every relocated file sits inside a category subdirectory, the scan only
examines the immediate children of the root and skips directories and
hidden names, so an immediately repeated live run changes nothing and
reports no created folder and no moved file. -/
theorem organize_live_idempotent (fs : FS) (root : List String)
    (h : (organize fs root false).exitCode = 0) :
    (organize (organize fs root false).fs root false).fs = (organize fs root false).fs ∧
    (organize (organize fs root false).fs root false).stdout
      = ["Organizing: " ++ pathStr root, "Done."] := by
  by_cases hv : (!fsExists fs root || !fsIsDir fs root) = true
  · exfalso
    simp [organize, hv] at h
  have hv' : (!fsExists fs root || !fsIsDir fs root) = false := by simpa using hv
  have hroot : (root, true) ∈ fs.entries := by
    have hdir : fsIsDir fs root = true := by
      rcases Bool.or_eq_false_iff.mp hv' with ⟨_, hb⟩
      simpa using hb
    obtain ⟨e, he, hee⟩ := List.any_eq_true.mp hdir
    obtain ⟨e1, e2⟩ := e
    obtain ⟨hp1, hp2⟩ : e1 = root ∧ e2 = true := by simpa using hee
    rw [hp1, hp2] at he
    exact he
  have hpend : pendingFiles root fs (childrenOf fs root) := by
    intro name hm hh
    exact List.mem_filterMap.mpr ⟨(root ++ [name], false), hm, childOf_root_append root name false⟩
  obtain ⟨hA, hB⟩ := live_fold_invariant root (childrenOf fs root) fs [] hroot hpend
  have hres : (organize fs root false).fs
      = ((childrenOf fs root).foldl (orgStep root false) (fs, [])).1 := by
    unfold organize
    rw [if_neg (by simp [hv'])]
  set rfs := ((childrenOf fs root).foldl (orgStep root false) (fs, [])).1 with hrfs
  have hex2 : fsExists rfs root = true :=
    List.any_eq_true.mpr ⟨(root, true), hA, by simp⟩
  have hdir2 : fsIsDir rfs root = true :=
    List.any_eq_true.mpr ⟨(root, true), hA, by simp⟩
  have hskip : ∀ it ∈ childrenOf rfs root, entryStep root false rfs it = (rfs, []) := by
    intro it hit
    obtain ⟨e, he, hce⟩ := List.mem_filterMap.mp hit
    have heq := childOf_some root e it hce
    by_cases h2 : it.2 = true
    · simp [entryStep, h2]
    · have h2' : it.2 = false := by simpa using h2
      by_cases hhid : strStartsWith it.1 "." = true
      · simp [entryStep, h2', hhid]
      · exfalso
        have hh' : strStartsWith it.1 "." = false := by simpa using hhid
        rw [heq, h2'] at he
        exact absurd (hB it.1 he hh') (List.not_mem_nil _)
  have hsecond : organize rfs root false
      = ⟨rfs, ["Organizing: " ++ pathStr root, "Done."], [], 0⟩ := by
    unfold organize
    rw [if_neg (by simp [hex2, hdir2])]
    rw [foldl_skip_all root (childrenOf rfs root) rfs [] hskip]
    rfl
  rw [hres, hsecond]
  exact ⟨rfl, rfl⟩

theorem organize_live_idempotent_witness :
    (organize ⟨[(["root"], true), (["root", "a.txt"], false)]⟩ ["root"] false).exitCode = 0 ∧
    ((organize (organize ⟨[(["root"], true), (["root", "a.txt"], false)]⟩ ["root"] false).fs
        ["root"] false).fs
      = (organize ⟨[(["root"], true), (["root", "a.txt"], false)]⟩ ["root"] false).fs ∧
     (organize (organize ⟨[(["root"], true), (["root", "a.txt"], false)]⟩ ["root"] false).fs
        ["root"] false).stdout
      = ["Organizing: " ++ pathStr ["root"], "Done."]) :=
  ⟨by decide,
    organize_live_idempotent ⟨[(["root"], true), (["root", "a.txt"], false)]⟩ ["root"]
      (by decide)⟩
